import Mathlib

/-!
Verification of the CPO trust-region update and environment substrate of
Safe-Policy-Optimization, shallowly embedded from
`safepo/envs/safe_dexteroushands/algorithms/cpo.py` and
`safepo/multi_agent/marl_utils/env_wrappers.py`.

Machine floats are modelled by exact rationals; the numeric square-root
routine is an explicit function parameter `sqrt : ℚ → ℚ`, since the claims
under study concern the control flow and algebraic structure of the update,
not floating-point rounding.
-/

namespace SafePO

/-- Global epsilon constant, cpo.py line 20: `EPS = 1e-8`. -/
def EPS : ℚ := 1 / 100000000

/-- Trust-region radius, cpo.py line 162: `self.max_kl = 0.02`. -/
def maxKl : ℚ := 1 / 50

/-! ## Dual-optimizer case classification (cpo.py lines 422-450)

The update first tests the shortcut `torch.matmul(b,b) <= 1e-8 and c < 0`
(case 4); otherwise it computes `A = q - r**2/s`, `B = 2*max_kl - c**2/s`
and branches on the signs of `c` and `B`. -/

/-- Case classification as a function of the cost-gradient squared norm
`btb = bᵀb`, the constraint violation `c` and the geometry scalar `B`,
mirroring the if/elif chain of cpo.py lines 422-450. -/
def optimCase (btb c B : ℚ) : ℕ :=
  if btb ≤ EPS ∧ c < 0 then 4
  else if c < 0 ∧ B < 0 then 3
  else if c < 0 ∧ 0 ≤ B then 2
  else if 0 ≤ c ∧ 0 ≤ B then 1
  else 0

/-- Constraint-violation fallback, cpo.py lines 289-295: `origin_cost = 0;
if len(ep_cost) == 0: avg_cost = origin_cost else: avg_cost =
np.mean(ep_cost) - self.cost_lim`. -/
def avgCost (epCost : List ℚ) (costLim : ℚ) : ℚ :=
  if epCost = [] then 0 else (epCost.sum / epCost.length) - costLim

/-- C1: the classification is exhaustive and mutually exclusive, case 4 is
selected exactly when `bᵀb ≤ 1e-8` and `c < 0`, and otherwise the case is
determined by the signs of `c` and `B` per the stated table. -/
theorem c1_case_selection (btb c B : ℚ) :
    optimCase btb c B ≤ 4
    ∧ (optimCase btb c B = 4 ↔ btb ≤ EPS ∧ c < 0)
    ∧ (optimCase btb c B = 3 ↔ ¬(btb ≤ EPS ∧ c < 0) ∧ c < 0 ∧ B < 0)
    ∧ (optimCase btb c B = 2 ↔ ¬(btb ≤ EPS ∧ c < 0) ∧ c < 0 ∧ 0 ≤ B)
    ∧ (optimCase btb c B = 1 ↔ ¬(btb ≤ EPS ∧ c < 0) ∧ 0 ≤ c ∧ 0 ≤ B)
    ∧ (optimCase btb c B = 0 ↔ ¬(btb ≤ EPS ∧ c < 0) ∧ 0 ≤ c ∧ B < 0) := by
  unfold optimCase
  split_ifs with h1 h2 h3 h4 <;>
    refine ⟨by omega, ?_, ?_, ?_, ?_, ?_⟩ <;> simp_all

/-! ## Vector operations

Flat parameter vectors and gradients are modelled as lists of rationals. -/

/-- Elementwise sum of two vectors (torch broadcast `+`). -/
def vadd (v w : List ℚ) : List ℚ := List.zipWith (· + ·) v w

/-- Elementwise difference of two vectors. -/
def vsub (v w : List ℚ) : List ℚ := List.zipWith (· - ·) v w

/-- Scalar multiple of a vector. -/
def scale (a : ℚ) (v : List ℚ) : List ℚ := v.map (fun t => a * t)

/-- Dot product, `torch.matmul` on two flat vectors. -/
def dot (v w : List ℚ) : ℚ := (List.zipWith (· * ·) v w).sum

/-! ## Conjugate-gradient solver (cpo.py lines 519-551)

The loop body computes `alpha = (rᵀr)/(pᵀAvp + EPS)`, updates `x`, returns on
the final iteration, and otherwise computes `beta = (r_newᵀr_new)/(rᵀr)`. -/

/-- One pass of the CG loop with `fuel` iterations remaining; `fuel = 1`
corresponds to the final iteration `i == max_iter - 1`, which returns `x`
immediately after the `x += alpha * p` update. -/
def cgLoop (Avp : List ℚ → List ℚ) : ℕ → List ℚ → List ℚ → List ℚ → List ℚ
  | 0, x, _r, _p => x
  | n + 1, x, r, p =>
    let Av := Avp p
    let alpha := dot r r / (dot p Av + EPS)
    let x1 := vadd x (scale alpha p)
    if n = 0 then x1
    else
      let rNew := vsub r (scale alpha Av)
      let beta := dot rNew rNew / dot r r
      cgLoop Avp n x1 rNew (vadd rNew (scale beta p))

/-- CG entry point, cpo.py `cg_solver` with its default `max_iter = 10`:
`x = 0, r = b.clone(), p = b.clone()`. -/
def cg_solver (Avp : List ℚ → List ℚ) (b : List ℚ) : List ℚ :=
  cgLoop Avp 10 (b.map (fun _ => 0)) b b

/-- Denominator of the CG step size `alpha` (cpo.py line 543):
`torch.matmul(p, Avp) + EPS`. -/
def cgAlphaDenom (p Av : List ℚ) : ℚ := dot p Av + EPS

/-- Denominator of the CG direction coefficient `beta` (cpo.py line 549):
`torch.matmul(r, r)`, with no epsilon guard. -/
def cgBetaDenom (r : List ℚ) : ℚ := dot r r

/-! ## Dual optimizer (cpo.py lines 422-468) -/

/-- Geometry scalar `A = q - r**2 / s` (cpo.py line 432); the division is by
the raw `s`. -/
def geomA (q r s : ℚ) : ℚ := q - r ^ 2 / s

/-- Geometry scalar `B = 2*max_kl - c**2/s` (cpo.py line 433); the division
is by the raw `s`. -/
def geomB (c s : ℚ) : ℚ := 2 * maxKl - c ^ 2 / s

/-- Denominator of the divisions producing `A` and `B`: the raw `s`. -/
def geomDenom (s : ℚ) : ℚ := s

/-- Interval endpoint `r/c` of `LA, LB = [0, r/c], [r/c, np.inf]`
(cpo.py line 455); the division is by the raw `c`. -/
def intervalBound (r c : ℚ) : ℚ := r / c

/-- Denominator of the interval-endpoint division: the raw `c`. -/
def intervalDenom (c : ℚ) : ℚ := c

/-- Classification step of the update (cpo.py lines 422-450): the shortcut
branch zeroes `w, r, s, A, B` and selects case 4; the other branch computes
`A`, `B` and classifies by the signs of `c` and `B`. Returns
`(optim_case, r, s, A, B)`. -/
def classify (q btb c rIn sIn : ℚ) : ℕ × ℚ × ℚ × ℚ × ℚ :=
  if btb ≤ EPS ∧ c < 0 then (4, 0, 0, 0, 0)
  else
    let A := geomA q rIn sIn
    let B := geomB c sIn
    (optimCase btb c B, rIn, sIn, A, B)

/-- Projection of a scalar into an interval, cpo.py line 457:
`proj = lambda x, L : max(L[0], min(L[1], x))`; an upper bound of `none`
stands for `np.inf`, for which `min(np.inf, x) = x`. -/
def proj (x : ℚ) (L : ℚ × Option ℚ) : ℚ :=
  max L.1 (match L.2 with | some hi => min hi x | none => x)

/-- Closed-form dual value on the A-branch, cpo.py line 460:
`f_a = lambda lam : -0.5 * (A / (lam+EPS) + B * lam) - r*c/(s+EPS)`. -/
def f_a (A B r c s lam : ℚ) : ℚ :=
  -(1 / 2) * (A / (lam + EPS) + B * lam) - r * c / (s + EPS)

/-- Closed-form dual value on the B-branch, cpo.py line 461:
`f_b = lambda lam : -0.5 * (q / (lam+EPS) + 2 * max_kl * lam)`. -/
def f_b (q lam : ℚ) : ℚ :=
  -(1 / 2) * (q / (lam + EPS) + 2 * maxKl * lam)

/-- Multiplier computation given the classified case (cpo.py lines 451-466),
returning `(lam, nu)`. -/
def dualLamNu (sqrt : ℚ → ℚ) (oc : ℕ) (q r s c A B : ℚ) : ℚ × ℚ :=
  if oc = 3 ∨ oc = 4 then
    (sqrt (q / (2 * maxKl)), 0)
  else if oc = 1 ∨ oc = 2 then
    let LA0 : ℚ × Option ℚ := (0, some (intervalBound r c))
    let LB0 : ℚ × Option ℚ := (intervalBound r c, none)
    let LA := if c < 0 then LA0 else LB0
    let LB := if c < 0 then LB0 else LA0
    let lamA := proj (sqrt (A / B)) LA
    let lamB := proj (sqrt (q / (2 * maxKl))) LB
    let lam := if f_a A B r c s lamA ≥ f_b q lamB then lamA else lamB
    (lam, max 0 (lam * c - r) / (s + EPS))
  else
    (0, sqrt (2 * maxKl / (s + EPS)))

/-- Final update direction, cpo.py line 468:
`x = (1./(lam+EPS)) * (v + nu * w) if optim_case > 0 else nu * w`. -/
def direction (oc : ℕ) (lam nu : ℚ) (v w : List ℚ) : List ℚ :=
  if 0 < oc then scale (1 / (lam + EPS)) (vadd v (scale nu w)) else scale nu w

/-! ## Spec-side rendering of the dual optimizer (claim C2)

The following definitions follow the wording of the specification, phrased
with explicit clamping operations, to be compared with the code-derived
`dualLamNu` and `direction` above. -/

/-- Clamp a value into a bounded interval `[lo, hi]`. -/
def clampInto (x lo hi : ℚ) : ℚ := max lo (min hi x)

/-- Clamp a value into a half-line `[lo, +inf)`. -/
def clampLower (x lo : ℚ) : ℚ := max lo x

/-- Modelled from the spec: for cases 3 and 4, `lam = sqrt(q/(2*max_kl))`
and `nu = 0`; for cases 1 and 2, clamp `sqrt(A/B)` into `[0, r/c]` and
`sqrt(q/(2*max_kl))` into `[r/c, +inf)` — intervals swapped when `c ≥ 0` —
pick the candidate with the larger closed-form dual value, and set
`nu = max(0, lam*c - r)/(s+ε)`; for case 0, `lam = 0` and
`nu = sqrt(2*max_kl/(s+ε))`. -/
def dualLamNuSpec (sqrt : ℚ → ℚ) (oc : ℕ) (q r s c A B : ℚ) : ℚ × ℚ :=
  if oc = 3 ∨ oc = 4 then
    (sqrt (q / (2 * maxKl)), 0)
  else if oc = 1 ∨ oc = 2 then
    let lamA :=
      if c < 0 then clampInto (sqrt (A / B)) 0 (r / c)
      else clampLower (sqrt (A / B)) (r / c)
    let lamB :=
      if c < 0 then clampLower (sqrt (q / (2 * maxKl))) (r / c)
      else clampInto (sqrt (q / (2 * maxKl))) 0 (r / c)
    let lam := if f_a A B r c s lamA ≥ f_b q lamB then lamA else lamB
    (lam, max 0 (lam * c - r) / (s + EPS))
  else
    (0, sqrt (2 * maxKl / (s + EPS)))

/-- Modelled from the spec: the final direction is `x = (v + nu*w)/(lam+ε)`
when the case is greater than 0 and `x = nu*w` for case 0. -/
def directionSpec (oc : ℕ) (lam nu : ℚ) (v w : List ℚ) : List ℚ :=
  if 0 < oc then scale (1 / (lam + EPS)) (vadd v (scale nu w))
  else scale nu w

/-- C2: the code's multiplier computation and final direction agree with the
specified closed forms in every case. -/
theorem c2_dual_multipliers (sqrt : ℚ → ℚ) (oc : ℕ) (q r s c A B lam nu : ℚ)
    (v w : List ℚ) :
    dualLamNu sqrt oc q r s c A B = dualLamNuSpec sqrt oc q r s c A B
    ∧ direction oc lam nu v w = directionSpec oc lam nu v w := by
  constructor
  · unfold dualLamNu dualLamNuSpec proj clampInto clampLower intervalBound
    split_ifs <;> rfl
  · rfl

/-! ## Constrained line search (cpo.py lines 472-506)

The search tries `np.linspace(0, 0.01, 10)` reversed; for each candidate
`e`, `set_and_eval` tentatively sets `theta - e*x`, re-evaluates the policy,
and accepts when the KL, surrogate-return and surrogate-cost predicates all
hold. The re-evaluation of the network is abstracted by the functions
`klOf`, `piOf`, `costOf` from the candidate step to the recomputed mean KL,
surrogate return and surrogate cost. -/

/-- Candidate schedule, cpo.py lines 496-498:
`np.linspace(0, 0.01, 10, endpoint=True)` reversed (largest first). -/
def piLinearSearchList : List ℚ :=
  ((List.range 10).map (fun i => (i : ℚ) * (1 / 100 / 9))).reverse

/-- Acceptance predicate of `set_and_eval` (cpo.py line 491):
`kl_value <= self.max_kl and (pi_l_new >= surrogate_loss if optim_case > 1
else True) and improve_cost <= max(-c, 0.0)`. -/
def setAndEval (klOf piOf costOf : ℚ → ℚ) (piPre costPre c : ℚ) (oc : ℕ)
    (e : ℚ) : Bool :=
  decide (klOf e ≤ maxKl)
    && (if 1 < oc then decide (piPre ≤ piOf e) else true)
    && decide (costOf e - costPre ≤ max (-c) 0)

/-- The search loop over a candidate list: `step_len = 0`, then break at the
first accepted candidate (cpo.py lines 497-502). -/
def firstAccepted (l : List ℚ) (accept : ℚ → Bool) : ℚ :=
  match l.find? accept with
  | some e => e
  | none => 0

/-- The search loop over the reversed linspace schedule. -/
def lineSearch (accept : ℚ → Bool) : ℚ :=
  firstAccepted piLinearSearchList accept

/-- Parameter update after the search, cpo.py line 505:
`new_policy = current_policy - step_len * x`. -/
def newPolicy (theta x : List ℚ) (step : ℚ) : List ℚ :=
  vsub theta (scale step x)

lemma piLinearSearchList_eq :
    piLinearSearchList =
      [1/100, 2/225, 7/900, 1/150, 1/180, 1/225, 1/300, 1/450, 1/900, 0] := by
  unfold piLinearSearchList
  norm_num [List.range_succ]

lemma piLinearSearchList_sorted : piLinearSearchList.Pairwise (· > ·) := by
  rw [piLinearSearchList_eq]
  norm_num [List.pairwise_cons]

lemma vsub_scale_zero (theta x : List ℚ) (h : x.length = theta.length) :
    vsub theta (scale 0 x) = theta := by
  induction theta generalizing x with
  | nil => simp [vsub]
  | cons a t ih =>
    cases x with
    | nil => simp at h
    | cons b xs =>
      have h' : xs.length = t.length := by simpa using h
      show (a - 0 * b) :: vsub t (scale 0 xs) = a :: t
      rw [zero_mul, sub_zero, ih xs h']

lemma firstAccepted_spec (accept : ℚ → Bool) (l : List ℚ) :
    firstAccepted l accept = 0
    ∨ (firstAccepted l accept ∈ l ∧ accept (firstAccepted l accept) = true) := by
  unfold firstAccepted
  cases h : l.find? accept with
  | none => exact Or.inl rfl
  | some e => exact Or.inr ⟨List.mem_of_find?_eq_some h, List.find?_some h⟩

lemma firstAccepted_reject_gt (accept : ℚ → Bool) :
    ∀ l : List ℚ, l.Pairwise (· > ·) →
      ∀ e ∈ l, firstAccepted l accept < e → accept e = false := by
  intro l
  induction l with
  | nil => intro _ e he; simp at he
  | cons a t ih =>
    intro hp e he hlt
    rcases List.pairwise_cons.mp hp with ⟨ha, ht⟩
    cases hA : accept a with
    | true =>
      have hfa : firstAccepted (a :: t) accept = a := by
        simp [firstAccepted, List.find?_cons, hA]
      rw [hfa] at hlt
      rcases List.mem_cons.mp he with rfl | he
      · exact absurd hlt (lt_irrefl _)
      · exact absurd hlt (not_lt.mpr (le_of_lt (ha e he)))
    | false =>
      have hfa : firstAccepted (a :: t) accept = firstAccepted t accept := by
        simp [firstAccepted, List.find?_cons, hA]
      rcases List.mem_cons.mp he with rfl | he
      · exact hA
      · exact ih ht e he (hfa ▸ hlt)

lemma firstAccepted_all_reject (accept : ℚ → Bool) (l : List ℚ)
    (h : ∀ e ∈ l, accept e = false) : firstAccepted l accept = 0 := by
  unfold firstAccepted
  rw [List.find?_eq_none.mpr (fun x hx => by simp [h x hx])]

/-- C3: the candidate schedule is the 10 evenly spaced points of `[0, 0.01]`
in descending order; the accepted step is the first (largest) candidate
satisfying the three predicates of `set_and_eval`; if none is accepted the
step is exactly 0 and the parameters are restored. -/
theorem c3_line_search (klOf piOf costOf : ℚ → ℚ) (piPre costPre c : ℚ)
    (oc : ℕ) :
    piLinearSearchList =
      [1/100, 2/225, 7/900, 1/150, 1/180, 1/225, 1/300, 1/450, 1/900, 0]
    ∧ piLinearSearchList.Pairwise (· > ·)
    ∧ (lineSearch (setAndEval klOf piOf costOf piPre costPre c oc) = 0
        ∨ (lineSearch (setAndEval klOf piOf costOf piPre costPre c oc)
              ∈ piLinearSearchList
           ∧ setAndEval klOf piOf costOf piPre costPre c oc
               (lineSearch (setAndEval klOf piOf costOf piPre costPre c oc))
              = true))
    ∧ (∀ e ∈ piLinearSearchList,
        lineSearch (setAndEval klOf piOf costOf piPre costPre c oc) < e →
          setAndEval klOf piOf costOf piPre costPre c oc e = false)
    ∧ ((∀ e ∈ piLinearSearchList,
          setAndEval klOf piOf costOf piPre costPre c oc e = false) →
        lineSearch (setAndEval klOf piOf costOf piPre costPre c oc) = 0)
    ∧ (∀ theta x : List ℚ, x.length = theta.length →
        newPolicy theta x 0 = theta)
    ∧ (∀ e : ℚ,
        setAndEval klOf piOf costOf piPre costPre c oc e = true ↔
          (klOf e ≤ maxKl ∧ (1 < oc → piPre ≤ piOf e)
            ∧ costOf e - costPre ≤ max (-c) 0)) := by
  refine ⟨piLinearSearchList_eq, piLinearSearchList_sorted,
    firstAccepted_spec _ _, ?_, ?_, ?_, ?_⟩
  · exact fun e he hlt =>
      firstAccepted_reject_gt _ piLinearSearchList piLinearSearchList_sorted
        e he hlt
  · exact fun h => firstAccepted_all_reject _ _ h
  · exact fun theta x h => vsub_scale_zero theta x h
  · intro e
    unfold setAndEval
    by_cases h : 1 < oc <;> simp [h, and_assoc]

/-- C3 witness: when every candidate is rejected (here the recomputed KL is
always above the trust region), the accepted step is exactly 0, and the
zero-step parameter write restores the original vector. -/
theorem c3_line_search_witness :
    lineSearch (setAndEval (fun _ => 1) (fun _ => 0) (fun _ => 0) 0 0 0 2) = 0
    ∧ newPolicy [5] [7] 0 = [5] :=
  ⟨(c3_line_search (fun _ => 1) (fun _ => 0) (fun _ => 0) 0 0 0 2).2.2.2.2.1
      (by
        intro e _
        unfold setAndEval
        have : ¬((1 : ℚ) ≤ maxKl) := by norm_num [maxKl]
        simp [this]),
   (c3_line_search (fun _ => 1) (fun _ => 0) (fun _ => 0) 0 0 0 2).2.2.2.2.2.1
      [5] [7] rfl⟩

/-- C10: the schedule ends with the candidate 0; whenever re-evaluating at
step 0 reproduces the pre-step KL (0), surrogate return and surrogate cost
— which holds because the zero step restores the parameters — the zero step
satisfies all three predicates, so the loop accepts some candidate and the
no-candidate fall-through is unreachable (given that the negative-KL
assertion fires on no candidate). -/
theorem c10_zero_step_accepted (klOf piOf costOf : ℚ → ℚ)
    (piPre costPre c : ℚ) (oc : ℕ)
    (hkl0 : klOf 0 = 0) (hpi0 : piOf 0 = piPre) (hcost0 : costOf 0 = costPre)
    (hassert : ∀ e ∈ piLinearSearchList, 0 ≤ klOf e) :
    piLinearSearchList.getLast? = some 0
    ∧ setAndEval klOf piOf costOf piPre costPre c oc 0 = true
    ∧ (piLinearSearchList.find?
        (setAndEval klOf piOf costOf piPre costPre c oc)).isSome = true := by
  have h0 : setAndEval klOf piOf costOf piPre costPre c oc 0 = true := by
    unfold setAndEval
    by_cases h : 1 < oc <;>
      simp [h, hkl0, hpi0, hcost0, maxKl, le_max_right]
  refine ⟨by rw [piLinearSearchList_eq]; rfl, h0, ?_⟩
  rw [List.find?_isSome]
  exact ⟨0, by rw [piLinearSearchList_eq]; simp, h0⟩

/-- C10 witness: a concrete evaluator matching the pre-step values at step 0
makes the loop accept a candidate. -/
theorem c10_zero_step_accepted_witness :
    (piLinearSearchList.find?
      (setAndEval (fun _ => 0) (fun _ => 3) (fun _ => 5) 3 5 1 2)).isSome
      = true :=
  (c10_zero_step_accepted (fun _ => 0) (fun _ => 3) (fun _ => 5) 3 5 1 2
    rfl rfl rfl (fun _ _ => le_refl 0)).2.2

/-! ## Claim C4: empty-rollout fallback (cpo.py lines 289-296, 422-450) -/

/-- C4 counterexample: with no completed episodes the fallback is `c = 0`,
but `c = 0` fails every `c < 0` test, so the classification lands in the
recovery regime case 1 (here with `s = 1`, giving `B = 2*max_kl ≥ 0`), not
in one of the feasible cases 2, 3 or 4. -/
theorem c4_counterexample :
    avgCost [] 25 = 0
    ∧ optimCase 0 (avgCost [] 25) (geomB (avgCost [] 25) 1) = 1
    ∧ optimCase 0 (avgCost [] 25) (geomB (avgCost [] 25) 1) ≠ 2
    ∧ optimCase 0 (avgCost [] 25) (geomB (avgCost [] 25) 1) ≠ 3
    ∧ optimCase 0 (avgCost [] 25) (geomB (avgCost [] 25) 1) ≠ 4 := by
  have h : avgCost [] 25 = 0 := rfl
  have hB : geomB (avgCost [] 25) 1 = 1 / 25 := by
    rw [h]; norm_num [geomB, maxKl]
  have hc : optimCase 0 (avgCost [] 25) (geomB (avgCost [] 25) 1) = 1 := by
    rw [hB, h]
    norm_num [optimCase, EPS]
  exact ⟨h, hc, by omega, by omega, by omega⟩

/-- C4 amended: when no episode completes, the constraint violation falls
back to the neutral default 0; the update then classifies the rollout into a
recovery regime (`c ≥ 0`): case 1 when `B ≥ 0` and case 0 when `B < 0`,
never a feasible (`c < 0`) case. -/
theorem c4_empty_rollout (lim btb B : ℚ) :
    avgCost [] lim = 0
    ∧ (0 ≤ B → optimCase btb (avgCost [] lim) B = 1)
    ∧ (B < 0 → optimCase btb (avgCost [] lim) B = 0) := by
  have h : avgCost [] lim = 0 := rfl
  rw [h]
  have h1 : ¬(btb ≤ EPS ∧ (0 : ℚ) < 0) := fun hx => absurd hx.2 (lt_irrefl 0)
  have h2 : ¬((0 : ℚ) < 0 ∧ B < 0) := fun hx => absurd hx.1 (lt_irrefl 0)
  have h3 : ¬((0 : ℚ) < 0 ∧ 0 ≤ B) := fun hx => absurd hx.1 (lt_irrefl 0)
  refine ⟨rfl, fun hB => ?_, fun hB => ?_⟩ <;> unfold optimCase
  · have h4 : (0 : ℚ) ≤ 0 ∧ 0 ≤ B := ⟨le_refl 0, hB⟩
    simp [h1, h2, h3, h4]
  · have h4 : ¬((0 : ℚ) ≤ 0 ∧ 0 ≤ B) := fun hx => absurd hB (not_lt.mpr hx.2)
    simp [h1, h2, h3, h4, hB]

/-- C4 witness: at `lim = 25`, `btb = 0`, `B = 1` the amended statement
yields case 1. -/
theorem c4_empty_rollout_witness :
    optimCase 0 (avgCost [] 25) 1 = 1 :=
  (c4_empty_rollout 25 0 1).2.1 (by norm_num)

/-! ## Claim C5: epsilon guards on divisions -/

/-- Guarded denominator `s + EPS`, cpo.py lines 460, 463 and 466 (the
`r*c/(s+EPS)` term of `f_a`, the `nu` formulas). -/
def nuDenom (s : ℚ) : ℚ := s + EPS

/-- Guarded denominator `lam + EPS`, cpo.py lines 460, 461 and 468 (`f_a`,
`f_b` and the direction scaling `1./(lam+EPS)`). -/
def lamDenom (lam : ℚ) : ℚ := lam + EPS

/-- C5 counterexample: the divisions producing `A` and `B` (denominator the
raw `s`, cpo.py lines 432-433), the interval bound `r/c` (denominator the
raw `c`, line 455) and the CG coefficient `beta` (denominator the raw
`rᵀr`, line 549) carry no epsilon guard, and their denominators are exactly
zero at vanishing inputs. -/
theorem c5_counterexample :
    geomDenom 0 = 0 ∧ intervalDenom 0 = 0 ∧ cgBetaDenom [0] = 0 := by
  refine ⟨rfl, rfl, ?_⟩
  norm_num [cgBetaDenom, dot]

/-- C5 amended: the divisions in the CG step size `alpha`, the dual values
`f_a` and `f_b`, the `nu` formulas and the direction scaling are guarded by
`ε = 1e-8` and have nonzero denominators whenever the guarded quantity is
nonnegative; but the divisions producing `A` and `B`, the interval bound
`r/c`, and the CG coefficient `beta` use the raw denominators `s`, `c` and
`rᵀr`, which are exactly zero at vanishing inputs. -/
theorem c5_guarded_divisions (s lam : ℚ) (p Av : List ℚ)
    (hs : 0 ≤ s) (hlam : 0 ≤ lam) (hpa : 0 ≤ dot p Av) :
    0 < cgAlphaDenom p Av ∧ 0 < nuDenom s ∧ 0 < lamDenom lam
    ∧ geomDenom 0 = 0 ∧ intervalDenom 0 = 0 ∧ cgBetaDenom [0] = 0 := by
  have hEPS : (0 : ℚ) < EPS := by norm_num [EPS]
  refine ⟨?_, ?_, ?_, rfl, rfl, ?_⟩
  · unfold cgAlphaDenom; linarith
  · unfold nuDenom; linarith
  · unfold lamDenom; linarith
  · norm_num [cgBetaDenom, dot]

/-- C5 witness: the guard bounds hold at `s = 0`, `lam = 0`,
`p = Av = [1]`. -/
theorem c5_guarded_divisions_witness :
    0 < cgAlphaDenom [1] [1] ∧ 0 < nuDenom 0 ∧ 0 < lamDenom 0 :=
  ⟨(c5_guarded_divisions 0 0 [1] [1] (le_refl 0) (le_refl 0)
      (by norm_num [dot])).1,
   (c5_guarded_divisions 0 0 [1] [1] (le_refl 0) (le_refl 0)
      (by norm_num [dot])).2.1,
   (c5_guarded_divisions 0 0 [1] [1] (le_refl 0) (le_refl 0)
      (by norm_num [dot])).2.2.1⟩

/-! ## Flat parameter utilities (cpo.py lines 31-48, 51-66, 99-114)

A parameter block is modelled by the flat contents of one tensor: torch's
`view(-1)` and `view(size)` are mutually inverse reshapes, so only the flat
data and the element count of each block matter to these routines. A model
is its list of parameter blocks in iteration order. -/

/-- Flatten, cpo.py `flatten`: `torch.cat([v.view(-1) for v in vecs])`. -/
def flatten (vecs : List (List ℚ)) : List ℚ := vecs.flatten

/-- Flat view of a model's parameters, cpo.py `get_flat_params`. -/
def get_flat_params (m : List (List ℚ)) : List ℚ := flatten m

/-- Total number of parameters of a model. -/
def totalParamCount (m : List (List ℚ)) : ℕ := (m.map List.length).sum

/-- Parameter write-back, cpo.py `set_params`: for each block take the slice
`new_params[index : index + params_length]` and reshape it with
`view(params.size())`, which raises (modelled by `Except.error`) exactly
when the slice cannot fill the block's element count; `index` advances by
the block length, which dropping the consumed prefix mirrors. -/
def set_params : List (List ℚ) → List ℚ → Except Unit (List (List ℚ))
  | [], _ => Except.ok []
  | p :: ps, v =>
    let s := v.take p.length
    if s.length = p.length then
      match set_params ps (v.drop p.length) with
      | Except.ok rest => Except.ok (s :: rest)
      | Except.error e => Except.error e
    else Except.error ()

/-- C6: restoring a model from its own flattened parameters succeeds and
leaves every parameter block identical. -/
theorem c6_flatten_restore_roundtrip (m : List (List ℚ)) :
    set_params m (get_flat_params m) = Except.ok m := by
  induction m with
  | nil => rfl
  | cons p ps ih =>
    show set_params (p :: ps) (p ++ flatten ps) = Except.ok (p :: ps)
    unfold set_params
    rw [List.take_left, List.drop_left]
    simp only [get_flat_params] at ih
    simp [ih]

/-- C8 counterexample: a vector longer than the model's total parameter
count is accepted silently — `set_params` writes the prefix `[5, 6]` into
the single two-element block and ignores the excess, raising no error. -/
theorem c8_counterexample :
    ([5, 6, 7] : List ℚ).length ≠ totalParamCount [[1, 2]]
    ∧ set_params [[1, 2]] [5, 6, 7] = Except.ok [[5, 6]] := by
  constructor
  · norm_num [totalParamCount]
  · rfl

/-- C8 amended: `set_params` writes the vector into the blocks by slicing
contiguous ranges in order, and raises exactly when the vector is shorter
than the model's total parameter count; a longer vector is accepted, only
its prefix of the total count being written. -/
theorem c8_set_params_shape (m : List (List ℚ)) (v : List ℚ) :
    (set_params m v = Except.error () ↔ v.length < totalParamCount m)
    ∧ (totalParamCount m ≤ v.length →
        set_params m v = set_params m (v.take (totalParamCount m))) := by
  constructor
  · induction m generalizing v with
    | nil =>
      simp [set_params, totalParamCount]
    | cons p ps ih =>
      by_cases hlen : p.length ≤ v.length
      · have htake : (v.take p.length).length = p.length := by
          simp [hlen]
        have hdrop : (v.drop p.length).length = v.length - p.length := by
          simp
        unfold set_params
        rw [if_pos htake]
        cases h : set_params ps (v.drop p.length) with
        | ok rest =>
          simp only [h]
          constructor
          · intro hx; exact absurd hx (by simp)
          · intro hx
            exfalso
            have hlt : (v.drop p.length).length < totalParamCount ps := by
              rw [List.length_drop]
              simp only [totalParamCount, List.map_cons, List.sum_cons] at hx
              simp only [totalParamCount]
              omega
            have hcontra := (ih (v.drop p.length)).mpr hlt
            rw [h] at hcontra
            exact absurd hcontra (by simp)
        | error e =>
          cases e
          simp only [h]
          have h1 := (ih (v.drop p.length)).mp h
          simp only [totalParamCount, List.map_cons, List.sum_cons,
            List.length_drop] at h1 ⊢
          constructor
          · intro _; omega
          · intro _; trivial
      · have htake : (v.take p.length).length ≠ p.length := by
          simp only [List.length_take]
          omega
        unfold set_params
        rw [if_neg htake]
        simp only [totalParamCount, List.map_cons, List.sum_cons]
        constructor
        · intro _; omega
        · intro _; trivial
  · induction m generalizing v with
    | nil => intro _; rfl
    | cons p ps ih =>
      intro hle
      have hTP : totalParamCount (p :: ps) = p.length + totalParamCount ps := by
        simp [totalParamCount]
      rw [hTP] at hle ⊢
      have h1 : p.length ≤ v.length := by omega
      have htake1 : (v.take (p.length + totalParamCount ps)).take p.length
          = v.take p.length := by
        rw [List.take_take]
        congr 1
        omega
      have hdrop1 : (v.take (p.length + totalParamCount ps)).drop p.length
          = (v.drop p.length).take (totalParamCount ps) := by
        rw [List.drop_take]
        congr 1
        omega
      unfold set_params
      rw [htake1, hdrop1]
      have h2 : totalParamCount ps ≤ (v.drop p.length).length := by
        simp only [List.length_drop]
        omega
      rw [← ih (v.drop p.length) h2]

/-- C8 witness: with one block of two parameters and the equal-length prefix
of a three-element vector, the two writes agree. -/
theorem c8_set_params_shape_witness :
    set_params [[1, 2]] [3, 4, 5]
      = set_params [[1, 2]] (([3, 4, 5] : List ℚ).take
          (totalParamCount [[1, 2]])) :=
  (c8_set_params_shape [[1, 2]] [3, 4, 5]).2 (by norm_num [totalParamCount])

/-! ## Parallel environment substrate (env_wrappers.py lines 324-363, 440-466)

A worker's step handler and the sequential fallback are embedded as pure
functions from one environment's step result and its pending reset result
to the reply actually sent. -/

/-- Done flag: either a scalar python bool (the worker tests
`'bool' in done.__class__.__name__`) or a per-agent array, for which the
worker tests `np.all(done)`. -/
inductive DoneFlag where
  | scalar (b : Bool)
  | vector (l : List Bool)
deriving DecidableEq

/-- The reset condition of the worker: a scalar done flag that is true, or
an array of done flags that are all true. -/
def allDone : DoneFlag → Bool
  | DoneFlag.scalar b => b
  | DoneFlag.vector l => l.all (fun d => d)

/-- Contents of one environment's step reply:
`(ob, s_ob, reward, cost, done, info, available_actions)`. -/
structure StepResult where
  obs : List ℚ
  sObs : List ℚ
  reward : ℚ
  cost : ℚ
  done : DoneFlag
  info : List ℚ
  avail : List ℚ
deriving DecidableEq

/-- Contents of a reset reply: `(ob, s_ob, available_actions)`. -/
structure ResetResult where
  obs : List ℚ
  sObs : List ℚ
  avail : List ℚ
deriving DecidableEq

/-- Worker step handler, env_wrappers.py lines 329-338: after
`env.step(data)`, when the done condition holds the worker calls
`env.reset()` and overwrites `ob, s_ob, available_actions` with the reset
values before sending the reply; `reward, cost, done, info` stay those of
the terminal transition. -/
def shareworkerReply (st : StepResult) (rs : ResetResult) : StepResult :=
  if allDone st.done then
    { st with obs := rs.obs, sObs := rs.sObs, avail := rs.avail }
  else st

/-- Sequential fallback, `ShareDummyVecEnv.step_wait` lines 453-466: after
stepping each environment, each index with its done condition true gets
`obs[i], share_obs[i], available_actions[i]` overwritten from
`self.envs[i].reset()`. -/
def shareDummyEntry (st : StepResult) (rs : ResetResult) : StepResult :=
  { obs := if allDone st.done then rs.obs else st.obs
    sObs := if allDone st.done then rs.sObs else st.sObs
    reward := st.reward
    cost := st.cost
    done := st.done
    info := st.info
    avail := if allDone st.done then rs.avail else st.avail }

/-- Batched results of the sequential fallback substrate. -/
def shareDummyStepWait (sts : List StepResult) (rss : List ResetResult) :
    List StepResult :=
  List.zipWith shareDummyEntry sts rss

/-- C7: when all of a worker's agents are done (or its scalar done flag is
true), the step reply carries the reset observation, shared observation and
available actions together with the terminal reward, cost, done and info;
otherwise the reply is the raw step result; and the sequential fallback
applies the same per-environment auto-reset. -/
theorem c7_auto_reset (st : StepResult) (rs : ResetResult)
    (sts : List StepResult) (rss : List ResetResult) :
    (allDone st.done = true →
      (shareworkerReply st rs).obs = rs.obs
      ∧ (shareworkerReply st rs).sObs = rs.sObs
      ∧ (shareworkerReply st rs).avail = rs.avail
      ∧ (shareworkerReply st rs).reward = st.reward
      ∧ (shareworkerReply st rs).cost = st.cost
      ∧ (shareworkerReply st rs).done = st.done
      ∧ (shareworkerReply st rs).info = st.info)
    ∧ (allDone st.done = false → shareworkerReply st rs = st)
    ∧ shareDummyStepWait sts rss = List.zipWith shareworkerReply sts rss := by
  have hfun : shareDummyEntry = shareworkerReply := by
    funext a b
    unfold shareDummyEntry shareworkerReply
    by_cases hd : allDone a.done <;> simp [hd]
  refine ⟨fun hd => ?_, fun hd => ?_, ?_⟩
  · simp [shareworkerReply, hd]
  · simp [shareworkerReply, hd]
  · rw [shareDummyStepWait, hfun]

/-- C7 witness: a single-agent environment whose scalar done flag is raised
replies with the reset observation and the terminal reward. -/
theorem c7_auto_reset_witness :
    (shareworkerReply ⟨[1], [2], 3, 4, DoneFlag.scalar true, [5], [6]⟩
        ⟨[7], [8], [9]⟩).obs = [7]
    ∧ (shareworkerReply ⟨[1], [2], 3, 4, DoneFlag.scalar true, [5], [6]⟩
        ⟨[7], [8], [9]⟩).reward = 3 :=
  ⟨((c7_auto_reset ⟨[1], [2], 3, 4, DoneFlag.scalar true, [5], [6]⟩
      ⟨[7], [8], [9]⟩ [] []).1 rfl).1,
   ((c7_auto_reset ⟨[1], [2], 3, 4, DoneFlag.scalar true, [5], [6]⟩
      ⟨[7], [8], [9]⟩ [] []).1 rfl).2.2.2.1⟩

/-! ## Rollout bookkeeping (cpo.py lines 235-301)

Per-environment running sums are accumulated each step; at indices whose
done flag is set, the running sums are appended to the per-iteration episode
lists and zeroed; after the horizon, the episode lists are pushed into the
bounded rolling deques (`maxlen=100`), which were initialized containing a
single `0` entry (lines 235-240: `rewbuffer = deque(maxlen=100);
rewbuffer.append(0)`, likewise for cost and length). -/

/-- Zero the entries of `l` at the done indices, cpo.py lines 286-288:
`cur_reward_sum[new_ids] = 0` etc. -/
def zeroAt (l : List ℚ) (dones : List Bool) : List ℚ :=
  List.zipWith (fun v d => if d then 0 else v) l dones

/-- Collect the entries of `l` at the done indices in ascending index order,
cpo.py lines 280-285: `new_ids = (dones > 0).nonzero(...)` then
`cur_reward_sum[new_ids][:, 0]`. -/
def pickAt (l : List ℚ) (dones : List Bool) : List ℚ :=
  (List.zip l dones).filterMap (fun vd => if vd.2 then some vd.1 else none)

/-- Mutable bookkeeping state of `CPO.run` during one collection phase. -/
structure RunState where
  curRewardSum : List ℚ
  curCostSum : List ℚ
  curEpisodeLength : List ℚ
  rewardSum : List ℚ
  costSum : List ℚ
  episodeLength : List ℚ
  epCost : List ℚ

/-- One rollout step of the bookkeeping, cpo.py lines 274-288:
`cur_reward_sum[:] += rews; cur_cost_sum[:] += costs;
cur_episode_length[:] += 1`, then extend the episode lists at the done
indices and zero the running sums there. -/
def bookkeepStep (st : RunState) (rews costs : List ℚ) (dones : List Bool) :
    RunState :=
  let cr := List.zipWith (· + ·) st.curRewardSum rews
  let cc := List.zipWith (· + ·) st.curCostSum costs
  let cl := st.curEpisodeLength.map (· + 1)
  { curRewardSum := zeroAt cr dones
    curCostSum := zeroAt cc dones
    curEpisodeLength := zeroAt cl dones
    rewardSum := st.rewardSum ++ pickAt cr dones
    costSum := st.costSum ++ pickAt cc dones
    episodeLength := st.episodeLength ++ pickAt cl dones
    epCost := st.epCost ++ pickAt cc dones }

/-- Extension of a `deque(maxlen=100)`: keep the most recent 100 entries. -/
def dequeExtend (buf xs : List ℚ) : List ℚ :=
  let all := buf ++ xs
  all.drop (all.length - 100)

/-- Bookkeeping state at the start of a collection phase, cpo.py lines
241-247: per-environment running sums are zero and the episode lists are
empty. -/
def initialRunState (numEnvs : ℕ) : RunState :=
  { curRewardSum := List.replicate numEnvs 0
    curCostSum := List.replicate numEnvs 0
    curEpisodeLength := List.replicate numEnvs 0
    rewardSum := []
    costSum := []
    episodeLength := []
    epCost := [] }

/-- Done flags of the C9 scenario: 2 environments, horizon 5, done raised at
the fifth step (index 4). -/
def scenarioDones (step : ℕ) : List Bool :=
  if step = 4 then [true, true] else [false, false]

/-- Bookkeeping state after the C9 scenario: every step yields reward 1 and
cost 0 in both environments. -/
def scenarioFinal : RunState :=
  (List.range 5).foldl
    (fun st i => bookkeepStep st [1, 1] [0, 0] (scenarioDones i))
    (initialRunState 2)

/-- Rolling reward buffer after the scenario: the initial deque `[0]`
extended with the collected episode rewards (cpo.py line 299). -/
def scenarioRewBuffer : List ℚ := dequeExtend [0] scenarioFinal.rewardSum

/-- Rolling cost buffer after the scenario (cpo.py line 300). -/
def scenarioCostBuffer : List ℚ := dequeExtend [0] scenarioFinal.costSum

/-- Rolling length buffer after the scenario (cpo.py line 301). -/
def scenarioLenBuffer : List ℚ := dequeExtend [0] scenarioFinal.episodeLength

lemma scenarioFinal_eq :
    scenarioFinal.rewardSum = [5, 5]
    ∧ scenarioFinal.episodeLength = [5, 5]
    ∧ scenarioFinal.costSum = [0, 0]
    ∧ scenarioFinal.curRewardSum = [0, 0]
    ∧ scenarioFinal.curCostSum = [0, 0]
    ∧ scenarioFinal.curEpisodeLength = [0, 0] := by
  have h : scenarioFinal =
      { curRewardSum := [0, 0]
        curCostSum := [0, 0]
        curEpisodeLength := [0, 0]
        rewardSum := [5, 5]
        costSum := [0, 0]
        episodeLength := [5, 5]
        epCost := [0, 0] } := by
    unfold scenarioFinal initialRunState
    norm_num [List.range_succ, bookkeepStep, zeroAt, pickAt, scenarioDones,
      List.replicate_succ, List.zipWith_cons_cons, List.zip_cons_cons,
      List.filterMap_cons, List.map_cons]
  rw [h]
  exact ⟨rfl, rfl, rfl, rfl, rfl, rfl⟩

/-- C9 counterexample: after the scenario the rolling reward buffer is
`[0, 5, 5]` — the `0` appended at initialization plus the two episode
entries — so it does not contain exactly one entry per environment. -/
theorem c9_counterexample :
    scenarioRewBuffer = [0, 5, 5] ∧ scenarioRewBuffer ≠ [5, 5] := by
  have h : scenarioRewBuffer = [0, 5, 5] := by
    unfold scenarioRewBuffer
    rw [scenarioFinal_eq.1]
    norm_num [dequeExtend]
  exact ⟨h, by rw [h]; simp⟩

/-- C9 amended: after the scenario, the per-iteration episode lists hold
exactly one entry per environment with length 5 and reward sum 5, the
running sums are reset to zero, and the rolling buffers hold those entries
after the single zero entry appended at buffer initialization. -/
theorem c9_rollout_bookkeeping :
    scenarioFinal.rewardSum = [5, 5]
    ∧ scenarioFinal.episodeLength = [5, 5]
    ∧ scenarioFinal.curRewardSum = [0, 0]
    ∧ scenarioRewBuffer = [0, 5, 5]
    ∧ scenarioLenBuffer = [0, 5, 5]
    ∧ scenarioCostBuffer = [0, 0, 0] := by
  refine ⟨scenarioFinal_eq.1, scenarioFinal_eq.2.1, scenarioFinal_eq.2.2.2.1,
    ?_, ?_, ?_⟩
  · unfold scenarioRewBuffer
    rw [scenarioFinal_eq.1]
    norm_num [dequeExtend]
  · unfold scenarioLenBuffer
    rw [scenarioFinal_eq.2.1]
    norm_num [dequeExtend]
  · unfold scenarioCostBuffer
    rw [scenarioFinal_eq.2.2.1]
    norm_num [dequeExtend]

end SafePO
